import Mathlib

/-!
Shallow embedding of the NYC taxi demand-forecasting pipeline
(loader, cleaner, aggregator, splitter) and proofs about it.

Conventions of the embedding:
* a missing value (NaN / NaT) is `none`, a present value is `some v`;
* numeric column values are rationals, timestamps are integers
  (seconds since the epoch), calendar dates are integers (days since
  the epoch, i.e. the floor of the timestamp divided by 86400);
* a pandas DataFrame of trip records is a `List Trip`; a DataFrame of
  daily series points with columns `ds`, `y` is a `List SeriesPoint`;
* in-place column assignment is modelled by mapping a pure record
  update over the list; fallible operations return `Except`.
-/

attribute [local semireducible] Rat.add Rat.mul Rat.sub Rat.inv

/-- Equality of fallible results is decidable, so concrete pipeline runs
can be checked by evaluation. -/
instance {ε α : Type} [DecidableEq ε] [DecidableEq α] : DecidableEq (Except ε α)
  | .error a, .error b =>
    if h : a = b then isTrue (by rw [h]) else isFalse (fun hh => h (Except.error.inj hh))
  | .error _, .ok _ => isFalse (fun hh => Except.noConfusion hh)
  | .ok _, .error _ => isFalse (fun hh => Except.noConfusion hh)
  | .ok a, .ok b =>
    if h : a = b then isTrue (by rw [h]) else isFalse (fun hh => h (Except.ok.inj hh))

namespace NycTaxi

/-- Numeric trip-record columns touched by the cleaning pipeline. -/
inductive NumCol where
  | trip_distance
  | fare_amount
  | total_amount
  | passenger_count
  | congestion_surcharge
  | Airport_fee
  | RatecodeID
  deriving DecidableEq, Repr

/-- Categorical trip-record columns touched by the cleaning pipeline. -/
inductive CatCol where
  | store_and_fwd_flag
  deriving DecidableEq, Repr

/-- One taxi trip record: the columns the core pipeline reads or writes.
Each field is optional, `none` standing for a missing value. -/
structure Trip where
  tpep_pickup_datetime : Option Int
  trip_distance : Option Rat
  fare_amount : Option Rat
  total_amount : Option Rat
  passenger_count : Option Rat
  congestion_surcharge : Option Rat
  Airport_fee : Option Rat
  RatecodeID : Option Rat
  store_and_fwd_flag : Option String
  deriving DecidableEq, Repr

instance : Inhabited Trip :=
  ⟨⟨none, none, none, none, none, none, none, none, none⟩⟩

/-- Read a numeric column of a record (`df[col]` for one row). -/
def Trip.getNum (r : Trip) : NumCol → Option Rat
  | .trip_distance => r.trip_distance
  | .fare_amount => r.fare_amount
  | .total_amount => r.total_amount
  | .passenger_count => r.passenger_count
  | .congestion_surcharge => r.congestion_surcharge
  | .Airport_fee => r.Airport_fee
  | .RatecodeID => r.RatecodeID

/-- Write a numeric column of a record (`df[col] = ...` for one row). -/
def Trip.setNum (r : Trip) (c : NumCol) (v : Option Rat) : Trip :=
  match c with
  | .trip_distance => { r with trip_distance := v }
  | .fare_amount => { r with fare_amount := v }
  | .total_amount => { r with total_amount := v }
  | .passenger_count => { r with passenger_count := v }
  | .congestion_surcharge => { r with congestion_surcharge := v }
  | .Airport_fee => { r with Airport_fee := v }
  | .RatecodeID => { r with RatecodeID := v }

/-- Read a categorical column of a record. -/
def Trip.getCat (r : Trip) : CatCol → Option String
  | .store_and_fwd_flag => r.store_and_fwd_flag

/-- Write a categorical column of a record. -/
def Trip.setCat (r : Trip) (c : CatCol) (v : Option String) : Trip :=
  match c with
  | .store_and_fwd_flag => { r with store_and_fwd_flag := v }

/-- The non-missing values of a numeric column, in row order
(the values pandas statistics such as `median`/`quantile` see). -/
def colValues (df : List Trip) (c : NumCol) : List Rat :=
  df.filterMap (fun r => r.getNum c)

/-- The non-missing values of a categorical column, in row order. -/
def colValuesCat (df : List Trip) (c : CatCol) : List String :=
  df.filterMap (fun r => r.getCat c)

/-- Middle element of an already sorted value list (odd length), or the
mean of the two middle elements (even length). -/
def medianSorted (s : List Rat) : Rat :=
  if s.length % 2 = 1 then s.getD (s.length / 2) 0
  else (s.getD (s.length / 2 - 1) 0 + s.getD (s.length / 2) 0) / 2

/-- Median of the non-missing values of a column, as pandas computes it:
skip NaNs, sort, take the middle (see `medianSorted`); `NaN` (here
`none`) on an empty column. -/
def median (xs : List Rat) : Option Rat :=
  if xs.isEmpty then none
  else some (medianSorted (xs.insertionSort (· ≤ ·)))

/-- Mode of the non-missing values of a column followed by taking index 0,
as `series.mode()[0]` computes it: the most frequent value, ties broken
towards the smallest value (pandas returns the tied modes sorted
ascending).  `none` models the empty mode result, on which the indexing
`[0]` raises. -/
def mode (xs : List String) : Option String :=
  (xs.dedup.insertionSort (· ≤ ·)).foldl (fun best c =>
    match best with
    | none => some c
    | some b => if xs.count b < xs.count c then some c else best) none

/-- Linear interpolation inside a sorted value list, as `series.quantile`
performs it: between the entries at index `floor pos` and `floor pos + 1`
(the latter clamped to the last entry). -/
def interpAt (s : List Rat) (pos : Rat) : Rat :=
  s.getD (⌊pos⌋.toNat) 0
    + (pos - ((⌊pos⌋.toNat : Nat) : Rat))
      * (s.getD (⌊pos⌋.toNat + 1) (s.getD (⌊pos⌋.toNat) 0) - s.getD (⌊pos⌋.toNat) 0)

/-- Linear-interpolation quantile of the non-missing values of a column, as
`series.quantile(q)` computes it: sort the values ascending and
interpolate at position `q * (n - 1)` where `n` is the number of
non-missing values; `NaN` (here `none`) on an empty column. -/
def quantile (xs : List Rat) (q : Rat) : Option Rat :=
  if xs.isEmpty then none
  else some (interpAt (xs.insertionSort (· ≤ ·)) (q * ((xs.length : Rat) - 1)))

/-- Clamp a present value between optional bounds, as `series.clip` does:
a `NaN` bound (here `none`) imposes no constraint, the lower bound is
applied before the upper. -/
def clip (v : Rat) (lower upper : Option Rat) : Rat :=
  match lower, upper with
  | some l, some u => min (max v l) u
  | some l, none => max v l
  | none, some u => min v u
  | none, none => v

/-- Errors of the cleaning stage.  `emptyModeIndex c` models the `KeyError`
raised by `df[col].mode()[0]` when the mode result is empty (all-missing
column). -/
inductive CleanError where
  | emptyModeIndex (c : CatCol)
  deriving DecidableEq, Repr

/-- Effect of `df.loc[df[col] < 0, col] = np.nan` on one row: a negative
value in the column becomes missing, everything else is untouched. -/
def scrubRecord (c : NumCol) (r : Trip) : Trip :=
  match r.getNum c with
  | some v => if v < 0 then r.setNum c none else r
  | none => r

/-- One iteration of the loop in remove_negative_values. -/
def scrubStep (d : List Trip) (c : NumCol) : List Trip :=
  d.map (scrubRecord c)

/-- remove_negative_values (src/preprocessing.py): for each listed column,
replace negative values with NaN (`df.loc[df[col] < 0, col] = np.nan`). -/
def remove_negative_values (df : List Trip) (cols : List NumCol) : List Trip :=
  cols.foldl scrubStep df

/-- One iteration of the loop in fill_missing_numeric: compute the column
median, then `fillna` with it.  `fillna(NaN)` — the all-missing case —
changes nothing. -/
def fillNumericStep (d : List Trip) (c : NumCol) : List Trip :=
  match median (colValues d c) with
  | none => d
  | some m => d.map (fun r => if r.getNum c = none then r.setNum c (some m) else r)

/-- fill_missing_numeric (src/preprocessing.py): fill missing values of each
listed numeric column with that column's median. -/
def fill_missing_numeric (df : List Trip) (numeric_cols : List NumCol) : List Trip :=
  numeric_cols.foldl fillNumericStep df

/-- fill_missing_categorical (src/preprocessing.py): fill missing values of
each listed categorical column with `df[col].mode()[0]`; on an all-missing
column the indexing `[0]` of the empty mode result raises. -/
def fill_missing_categorical (df : List Trip) (categorical_cols : List CatCol) :
    Except CleanError (List Trip) :=
  categorical_cols.foldlM (fun d c =>
    match mode (colValuesCat d c) with
    | none => Except.error (.emptyModeIndex c)
    | some m =>
        Except.ok (d.map (fun r => if r.getCat c = none then r.setCat c (some m) else r))) df

/-- Effect of `df[col] = df[col].clip(lower_val, upper_val)` on one row:
a present value is clamped, a missing value stays missing. -/
def capRecord (col : NumCol) (lower_val upper_val : Option Rat) (r : Trip) : Trip :=
  match r.getNum col with
  | some v => r.setNum col (some (clip v lower_val upper_val))
  | none => r

/-- cap_outliers (src/preprocessing.py): clip a column to its
`lower_percentile`/`upper_percentile` quantiles. -/
def cap_outliers (df : List Trip) (col : NumCol)
    (lower_percentile upper_percentile : Rat) : List Trip :=
  let lower_val := quantile (colValues df col) lower_percentile
  let upper_val := quantile (colValues df col) upper_percentile
  df.map (capRecord col lower_val upper_val)

/-- The fixed column set scrubbed of negative values in step 1 of
preprocess_data. -/
def scrub_cols : List NumCol := [.trip_distance, .fare_amount, .total_amount]

/-- The fixed numeric column set imputed in step 2 of preprocess_data
(note: it does not contain trip_distance). -/
def numeric_cols : List NumCol :=
  [.passenger_count, .congestion_surcharge, .Airport_fee, .RatecodeID,
   .fare_amount, .total_amount]

/-- The fixed categorical column set imputed in step 3 of preprocess_data. -/
def categorical_cols : List CatCol := [.store_and_fwd_flag]

/-- The fixed column set capped in step 4 of preprocess_data. -/
def cap_cols : List NumCol := [.trip_distance, .fare_amount, .total_amount]

/-- Step 4 of preprocess_data: cap each listed column at the 1st and 99th
percentiles, sequentially. -/
def capAll (df : List Trip) : List Trip :=
  cap_cols.foldl (fun d c => cap_outliers d c (1 / 100) (99 / 100)) df

/-- preprocess_data (src/preprocessing.py): scrub negatives, impute numeric
medians, impute categorical modes, cap outliers — in that order. -/
def preprocess_data (df : List Trip) : Except CleanError (List Trip) :=
  match fill_missing_categorical
      (fill_missing_numeric (remove_negative_values df scrub_cols) numeric_cols)
      categorical_cols with
  | .error e => Except.error e
  | .ok df3 => Except.ok (capAll df3)

/-- Seconds per day: timestamps are seconds since the epoch, dates are days
since the epoch. -/
def secondsPerDay : Int := 86400

/-- Truncation of a timestamp to its calendar date (`.dt.date`): floor
division by the length of a day. -/
def dateOf (t : Int) : Int := t.fdiv secondsPerDay

/-- Timestamp of 2024-01-01 00:00:00, the inclusive start of the loader's
date window (day 19723 since 1970-01-01). -/
def ts_2024_01_01 : Int := 19723 * secondsPerDay

/-- Timestamp of 2025-02-01 00:00:00, the exclusive end of the loader's
date window (day 20120 since 1970-01-01). -/
def ts_2025_02_01 : Int := 20120 * secondsPerDay

/-- Loader failure: `pd.read_parquet` raising `FileNotFoundError` on an
explicitly named file that is absent. -/
inductive LoadError where
  | fileNotFound (name : String)
  deriving DecidableEq, Repr

/-- A data directory: filenames paired with the record batches they parse
to.  A row whose pickup timestamp cannot be parsed carries `none` there
(`pd.to_datetime(..., errors=coerce)` yields NaT). -/
structure DataDir where
  files : List (String × List Trip)

/-- Whether a filename matches the glob pattern
`yellow_tripdata_2024-*.parquet`: it carries that fixed head, `*` stands
for any character sequence, and it carries that fixed tail.  (The two
fixed parts cannot overlap, because the head contains no dot.) -/
def matchesPattern2024 (n : String) : Bool :=
  ("yellow_tripdata_2024-".toList.isPrefixOf n.toList)
    && (".parquet".toList.isSuffixOf n.toList)

/-- The filenames `glob.glob` returns for the pattern
`yellow_tripdata_2024-*.parquet`, sorted: only files actually present in
the directory are listed, so an absent monthly batch is simply not here. -/
def glob2024 (dir : DataDir) : List String :=
  ((dir.files.map Prod.fst).filter matchesPattern2024).insertionSort (· ≤ ·)

/-- The explicitly named January-2025 batch file. -/
def jan2025File : String := "yellow_tripdata_2025-01.parquet"

/-- pandas `read_parquet`: the named file's rows, or a failure when the
file is absent from the directory. -/
def read_parquet (dir : DataDir) (name : String) : Except LoadError (List Trip) :=
  match dir.files.lookup name with
  | some rows => Except.ok rows
  | none => Except.error (.fileNotFound name)

/-- The date filter of the loader (src/aggregation.py lines 36-38): keep
rows whose pickup timestamp lies in `[start, stop)`; a row with an
unparseable timestamp (NaT) fails both comparisons and is dropped. -/
def filterDateRange (df : List Trip) (start stop : Int) : List Trip :=
  df.filter (fun r =>
    match r.tpep_pickup_datetime with
    | some t => decide (start ≤ t) && decide (t < stop)
    | none => false)

/-- The reading loop of load_all_data: read each listed file in order and
collect the batches. -/
def readAll (dir : DataDir) : List String → Except LoadError (List (List Trip))
  | [] => Except.ok []
  | n :: ns => do
    let df ← read_parquet dir n
    let rest ← readAll dir ns
    pure (df :: rest)

/-- load_all_data (src/aggregation.py): read the glob-discovered 2024
batches in sorted filename order, then the explicitly named January-2025
batch, concatenate them, and filter to the `[2024-01-01, 2025-02-01)`
window. -/
def load_all_data (dir : DataDir) : Except LoadError (List Trip) := do
  let dfs2024 ← readAll dir (glob2024 dir)
  let dfJan ← read_parquet dir jan2025File
  let df_all := dfs2024.flatten ++ dfJan
  pure (filterDateRange df_all ts_2024_01_01 ts_2025_02_01)

/-- A point of the daily series: columns `ds` (calendar date) and `y`
(trip count for that date). -/
structure DailyPoint where
  ds : Int
  y : Nat
  deriving DecidableEq, Repr

/-- aggregate_daily (src/aggregation.py): truncate each parsed pickup
timestamp to its calendar date, group by date (rows whose timestamp did
not parse have a null key and are dropped by the groupby), count rows per
date, and sort ascending by date. -/
def aggregate_daily (df : List Trip) : List DailyPoint :=
  let dates := (df.filterMap (fun r => r.tpep_pickup_datetime)).map dateOf
  let keys := dates.dedup.insertionSort (· ≤ ·)
  keys.map (fun d => { ds := d, y := dates.count d })

/-- Python slice `xs[:j]` for an arbitrary integer bound `j`, as `iloc`
interprets it: a negative bound counts from the end, and the bound is
clamped to the list. -/
def pySliceTo (xs : List DailyPoint) (j : Int) : List DailyPoint :=
  xs.take (max (if j < 0 then j + (xs.length : Int) else j) 0).toNat

/-- Python slice `xs[i:]` for an arbitrary integer bound `i`, as `iloc`
interprets it. -/
def pySliceFrom (xs : List DailyPoint) (i : Int) : List DailyPoint :=
  xs.drop (max (if i < 0 then i + (xs.length : Int) else i) 0).toNat

/-- df.sort_values(by ds).reset_index(drop True): sort the series by its
`ds` column. -/
def sortByDs (df : List DailyPoint) : List DailyPoint :=
  df.insertionSort (fun a b => a.ds ≤ b.ds)

/-- train_test_split_prophet (src/evaluation.py): sort by `ds`, then return
`(df.iloc[:-test_size], df.iloc[-test_size:])`.  The function performs no
validation of `test_size`. -/
def train_test_split_prophet (df : List DailyPoint) (test_size : Int) :
    List DailyPoint × List DailyPoint :=
  (pySliceTo (sortByDs df) (-test_size), pySliceFrom (sortByDs df) (-test_size))

/-! ### Helper lemmas: splitter -/

/-- Both slices of the splitter cut the sorted series at the same index, so
together they always form a partition. -/
theorem pySlice_partition (xs : List DailyPoint) (j : Int) :
    pySliceTo xs j ++ pySliceFrom xs j = xs := by
  unfold pySliceTo pySliceFrom
  exact List.take_append_drop _ xs

/-- When the (possibly end-relative) slice bound resolves to a non-positive
index, slicing to it yields nothing and slicing from it yields everything. -/
theorem pySlice_nonpos (xs : List DailyPoint) (j : Int)
    (h : (if j < 0 then j + (xs.length : Int) else j) ≤ 0) :
    pySliceTo xs j = [] ∧ pySliceFrom xs j = xs := by
  unfold pySliceTo pySliceFrom
  have hz : (max (if j < 0 then j + (xs.length : Int) else j) 0).toNat = 0 := by
    rw [Int.toNat_eq_zero]
    exact max_le h le_rfl
  rw [hz]
  exact ⟨List.take_zero xs, List.drop_zero xs⟩

/-- Sorting the series does not change its length. -/
theorem sortByDs_length (df : List DailyPoint) : (sortByDs df).length = df.length :=
  (List.perm_insertionSort _ df).length_eq

/-- A series whose dates are strictly increasing is unchanged by
`sort_values`. -/
theorem sortByDs_eq_of_sorted (df : List DailyPoint)
    (h : df.Pairwise (fun a b => a.ds < b.ds)) : sortByDs df = df :=
  List.Sorted.insertionSort_eq (List.Pairwise.imp (fun hab => le_of_lt hab) h)

/-- A dedicated example series of length 3 (the spec's splitter scenario). -/
def exSeries3 : List DailyPoint := [⟨19723, 5⟩, ⟨19724, 7⟩, ⟨19725, 9⟩]

/-- C10: calling the splitter with test_size = 0 does not raise: slicing to
index -0 is slicing to index 0, so the train segment is empty and the test
segment is the entire sorted series. -/
theorem splitter_test_size_zero (df : List DailyPoint) :
    train_test_split_prophet df 0 = ([], sortByDs df) := by
  unfold train_test_split_prophet
  have h := pySlice_nonpos (sortByDs df) (-0) (by simp)
  rw [h.1, h.2]

/-- C1 counterexample: on a series of length 3 with test_size = 3 the
splitter does not fail with any error: it returns the split consisting of an
empty train segment and the whole series as the test segment. -/
theorem splitter_total_at_len3 :
    train_test_split_prophet exSeries3 3 = ([], exSeries3) := by decide

/-- C1 (amended): the splitter performs no validation of test_size: for
every test_size it returns a partition of the sorted series (it never
fails), and whenever test_size = 0 or test_size ≥ len(df) the returned
split is the degenerate one: empty train, whole sorted series as test. -/
theorem splitter_no_validation (df : List DailyPoint) (test_size : Int) :
    (train_test_split_prophet df test_size).1
        ++ (train_test_split_prophet df test_size).2 = sortByDs df
    ∧ (test_size = 0 ∨ (df.length : Int) ≤ test_size →
        train_test_split_prophet df test_size = ([], sortByDs df)) := by
  unfold train_test_split_prophet
  refine ⟨pySlice_partition _ _, fun h => ?_⟩
  have hlen := sortByDs_length df
  have h0 : (if -test_size < 0 then -test_size + ((sortByDs df).length : Int)
      else -test_size) ≤ 0 := by
    rcases h with h | h <;> rw [hlen] <;> split <;> omega
  have hp := pySlice_nonpos (sortByDs df) (-test_size) h0
  rw [hp.1, hp.2]

/-- Witness for C1 (amended) at the length-3 series with test_size = 3. -/
theorem splitter_no_validation_witness :
    ((3 : Int) = 0 ∨ (exSeries3.length : Int) ≤ 3)
    ∧ train_test_split_prophet exSeries3 3 = ([], sortByDs exSeries3) :=
  ⟨Or.inr (by decide), (splitter_no_validation exSeries3 3).2 (Or.inr (by decide))⟩

/-- C3: for a sorted daily series and 0 < test_size < N, the splitter
returns the first N - test_size points as train and the last test_size
points as test; the lengths sum to N, concatenating train and test
reproduces the series exactly, every train date strictly precedes every
test date, and both halves stay sorted. -/
theorem splitter_correct (df : List DailyPoint) (test_size : Int)
    (hsorted : df.Pairwise (fun a b => a.ds < b.ds))
    (hpos : 0 < test_size) (hlt : test_size < (df.length : Int)) :
    train_test_split_prophet df test_size
        = (df.take (df.length - test_size.toNat), df.drop (df.length - test_size.toNat))
    ∧ (train_test_split_prophet df test_size).1.length
        + (train_test_split_prophet df test_size).2.length = df.length
    ∧ (train_test_split_prophet df test_size).2.length = test_size.toNat
    ∧ (train_test_split_prophet df test_size).1
        ++ (train_test_split_prophet df test_size).2 = df
    ∧ (∀ a ∈ (train_test_split_prophet df test_size).1,
        ∀ b ∈ (train_test_split_prophet df test_size).2, a.ds < b.ds)
    ∧ (train_test_split_prophet df test_size).1.Pairwise (fun a b => a.ds < b.ds)
    ∧ (train_test_split_prophet df test_size).2.Pairwise (fun a b => a.ds < b.ds) := by
  have hs : sortByDs df = df := sortByDs_eq_of_sorted df hsorted
  have hmain : train_test_split_prophet df test_size
      = (df.take (df.length - test_size.toNat), df.drop (df.length - test_size.toNat)) := by
    unfold train_test_split_prophet pySliceTo pySliceFrom
    rw [hs]
    have hneg : -test_size < 0 := by omega
    rw [if_pos hneg]
    have harg : (max (-test_size + (df.length : Int)) 0).toNat
        = df.length - test_size.toNat := by omega
    rw [harg]
  rw [hmain]
  have hsplit := List.pairwise_append.mp
    (by rw [List.take_append_drop (df.length - test_size.toNat) df]; exact hsorted)
  refine ⟨rfl, ?_, ?_, List.take_append_drop _ df, hsplit.2.2, hsplit.1, hsplit.2.1⟩
  · simp only [List.length_take, List.length_drop]
    omega
  · simp only [List.length_drop]
    omega

/-- Witness for C3 at the spec's scenario: the length-3 series with
test_size = 1. -/
theorem splitter_correct_witness :
    exSeries3.Pairwise (fun a b => a.ds < b.ds)
    ∧ (0 : Int) < 1 ∧ (1 : Int) < (exSeries3.length : Int)
    ∧ train_test_split_prophet exSeries3 1
        = (exSeries3.take (exSeries3.length - (1 : Int).toNat),
           exSeries3.drop (exSeries3.length - (1 : Int).toNat)) :=
  ⟨by decide, by decide, by decide,
    (splitter_correct exSeries3 1 (by decide) (by decide) (by decide)).1⟩

/-! ### Aggregator -/

/-- C4: the daily aggregation yields strictly increasing dates (no
duplicates), and its counts sum to the number of input records whose
pickup timestamp is valid (parsed, non-null). -/
theorem aggregate_daily_invariants (df : List Trip) :
    (aggregate_daily df).Pairwise (fun p q => p.ds < q.ds)
    ∧ ((aggregate_daily df).map (fun p => p.y)).sum
        = (df.filterMap (fun r => r.tpep_pickup_datetime)).length := by
  unfold aggregate_daily
  simp only []
  set dates := (df.filterMap (fun r => r.tpep_pickup_datetime)).map dateOf with hdates
  set keys := dates.dedup.insertionSort (· ≤ ·) with hkeys
  have hperm : List.Perm keys dates.dedup := List.perm_insertionSort _ _
  have hnodup : keys.Nodup := hperm.nodup_iff.mpr dates.nodup_dedup
  have hsortle : keys.Sorted (· ≤ ·) := List.sorted_insertionSort _ _
  have hsortlt : keys.Sorted (· < ·) := hsortle.lt_of_le hnodup
  constructor
  · exact List.Pairwise.map _ (fun a b hab => hab) hsortlt
  · rw [List.map_map]
    have hsum : ((keys.map fun d => dates.count d)).sum
        = ((dates.dedup.map fun d => dates.count d)).sum :=
      (hperm.map _).sum_eq
    have : (List.map ((fun p => p.y) ∘ fun d => DailyPoint.mk d (dates.count d)) keys)
        = keys.map fun d => dates.count d := rfl
    rw [this, hsum, List.sum_map_count_dedup_eq_length]
    exact List.length_map _ _

/-! ### Loader -/

/-- Looking a key up in an association list succeeds when the key occurs
among the keys. -/
theorem lookup_isSome_of_mem_keys {l : List (String × List Trip)} {n : String}
    (h : n ∈ l.map Prod.fst) : (l.lookup n).isSome := by
  induction l with
  | nil => simp at h
  | cons p l ih =>
    simp only [List.map_cons, List.mem_cons] at h
    by_cases hn : n == p.1
    · simp [List.lookup, hn]
    · rcases h with h | h
      · exact absurd (by simp [h]) hn
      · simpa [List.lookup, hn] using ih h

/-- Every filename the 2024 glob returns is present in the directory. -/
theorem glob2024_mem {dir : DataDir} {n : String} (h : n ∈ glob2024 dir) :
    n ∈ dir.files.map Prod.fst := by
  unfold glob2024 at h
  have h1 := (List.perm_insertionSort _ _).mem_iff.mp h
  exact (List.mem_filter.mp h1).1

/-- Reading a list of filenames that all exist in the directory never
fails. -/
theorem readAll_ok_of_mem (dir : DataDir) (ns : List String)
    (h : ∀ n ∈ ns, n ∈ dir.files.map Prod.fst) :
    ∃ dfs, readAll dir ns = Except.ok dfs := by
  induction ns with
  | nil => exact ⟨[], rfl⟩
  | cons n ns ih =>
    have hsome := lookup_isSome_of_mem_keys (h n (List.mem_cons_self n ns))
    obtain ⟨rows, hrows⟩ := Option.isSome_iff_exists.mp hsome
    obtain ⟨dfs, hdfs⟩ := ih (fun m hm => h m (List.mem_cons_of_mem n hm))
    refine ⟨rows :: dfs, ?_⟩
    simp [readAll, read_parquet, hrows, hdfs, Bind.bind, Except.bind, Pure.pure, Except.pure]

/-- A successful load produces exactly the date-filtered concatenation of
the batches that were read. -/
theorem load_all_data_ok_eq {dir : DataDir} {out : List Trip}
    (h : load_all_data dir = Except.ok out) :
    ∃ pre, out = filterDateRange pre ts_2024_01_01 ts_2025_02_01 := by
  unfold load_all_data at h
  cases h1 : readAll dir (glob2024 dir) with
  | error e => rw [h1] at h; simp [Bind.bind, Except.bind] at h
  | ok dfs =>
    rw [h1] at h
    cases h2 : read_parquet dir jan2025File with
    | error e => rw [h2] at h; simp [Bind.bind, Except.bind] at h
    | ok jan =>
      rw [h2] at h
      simp only [Bind.bind, Except.bind, pure, Except.pure, Except.ok.injEq] at h
      exact ⟨dfs.flatten ++ jan, h.symm⟩

/-- Rows surviving the date filter carry a parsed timestamp inside the
window. -/
theorem mem_filterDateRange_bounds {df : List Trip} {start stop : Int} {r : Trip}
    (hr : r ∈ filterDateRange df start stop) :
    ∃ t, r.tpep_pickup_datetime = some t ∧ start ≤ t ∧ t < stop := by
  obtain ⟨_, hp⟩ := List.mem_filter.mp hr
  cases ht : r.tpep_pickup_datetime with
  | none => rw [ht] at hp; simp at hp
  | some t =>
    rw [ht] at hp
    simp only [Bool.and_eq_true, decide_eq_true_eq] at hp
    exact ⟨t, rfl, hp.1, hp.2⟩

/-- C5: every record the loader outputs has its pickup timestamp in
`[2024-01-01, 2025-02-01)`; a record stamped exactly at the window start
passes the filter, a record stamped exactly at the window end does not. -/
theorem loader_date_filter (dir : DataDir) (out : List Trip)
    (h : load_all_data dir = Except.ok out) :
    (∀ r ∈ out, ∃ t, r.tpep_pickup_datetime = some t
        ∧ ts_2024_01_01 ≤ t ∧ t < ts_2025_02_01)
    ∧ (∀ (df : List Trip) (r : Trip), r ∈ df →
        (r.tpep_pickup_datetime = some ts_2024_01_01 →
          r ∈ filterDateRange df ts_2024_01_01 ts_2025_02_01)
        ∧ (r.tpep_pickup_datetime = some ts_2025_02_01 →
          r ∉ filterDateRange df ts_2024_01_01 ts_2025_02_01)) := by
  constructor
  · obtain ⟨pre, hpre⟩ := load_all_data_ok_eq h
    intro r hr
    rw [hpre] at hr
    exact mem_filterDateRange_bounds hr
  · intro df r hr
    constructor
    · intro ht
      refine List.mem_filter.mpr ⟨hr, ?_⟩
      rw [ht]
      simp only [Bool.and_eq_true, decide_eq_true_eq]
      exact ⟨le_refl _, by norm_num [ts_2024_01_01, ts_2025_02_01, secondsPerDay]⟩
    · intro ht hmem
      obtain ⟨t, ht2, _, hlt⟩ := mem_filterDateRange_bounds hmem
      rw [ht] at ht2
      cases ht2
      exact absurd hlt (lt_irrefl _)

/-- A trip stamped exactly at the start of the loader's window. -/
def tripAtStart : Trip :=
  { tpep_pickup_datetime := some ts_2024_01_01, trip_distance := some 1,
    fare_amount := some 2, total_amount := some 3, passenger_count := some 1,
    congestion_surcharge := some 0, Airport_fee := some 0, RatecodeID := some 1,
    store_and_fwd_flag := some "N" }

/-- A trip stamped exactly at the end of the loader's window. -/
def tripAtEnd : Trip :=
  { tripAtStart with tpep_pickup_datetime := some ts_2025_02_01 }

/-- A directory holding only the January-2025 batch, containing the two
boundary trips. -/
def exDirBoundary : DataDir := ⟨[(jan2025File, [tripAtStart, tripAtEnd])]⟩

set_option maxRecDepth 20000 in
/-- Witness for C5: on a concrete directory the loader succeeds, its output
satisfies the window bounds, and the boundary behaviour is as claimed. -/
theorem loader_date_filter_witness :
    (∀ r ∈ [tripAtStart], ∃ t, r.tpep_pickup_datetime = some t
        ∧ ts_2024_01_01 ≤ t ∧ t < ts_2025_02_01)
    ∧ (∀ (df : List Trip) (r : Trip), r ∈ df →
        (r.tpep_pickup_datetime = some ts_2024_01_01 →
          r ∈ filterDateRange df ts_2024_01_01 ts_2025_02_01)
        ∧ (r.tpep_pickup_datetime = some ts_2025_02_01 →
          r ∉ filterDateRange df ts_2024_01_01 ts_2025_02_01)) :=
  loader_date_filter exDirBoundary [tripAtStart] (by rfl)

set_option maxRecDepth 20000 in
/-- C7 counterexample: a directory from which every 2024 monthly batch is
absent (only the January-2025 file exists): the loader does not fail, it
returns a successful (empty) load. -/
theorem loader_ok_without_2024_batches :
    load_all_data ⟨[(jan2025File, [])]⟩ = Except.ok [] := by rfl

/-- C7 (amended): the loader fails if and only if the explicitly named
January-2025 batch file is absent; 2024 monthly batches are discovered by
glob, so an absent one is silently skipped and never causes a failure. -/
theorem load_all_data_ok_iff (dir : DataDir) :
    (load_all_data dir).isOk ↔ (dir.files.lookup jan2025File).isSome := by
  obtain ⟨dfs, hdfs⟩ :=
    readAll_ok_of_mem dir (glob2024 dir) (fun n hn => glob2024_mem hn)
  unfold load_all_data
  rw [hdfs]
  cases hjan : dir.files.lookup jan2025File with
  | some rows =>
      simp [read_parquet, hjan, Bind.bind, Except.bind, pure, Except.pure, Except.isOk, Except.toBool]
  | none =>
      simp [read_parquet, hjan, Bind.bind, Except.bind, Except.isOk, Except.toBool]

/-- Witness for C7 (amended): in a concrete directory holding only the
January-2025 file, the loader succeeds. -/
theorem load_all_data_ok_iff_witness :
    (load_all_data exDirBoundary).isOk = true :=
  (load_all_data_ok_iff exDirBoundary).mpr (by decide)

/-! ### Helper lemmas: record accessors -/

theorem Trip.getNum_setNum_self (r : Trip) (c : NumCol) (v : Option Rat) :
    (r.setNum c v).getNum c = v := by
  cases c <;> rfl

theorem Trip.getNum_setNum_ne (r : Trip) {c c' : NumCol} (h : c ≠ c') (v : Option Rat) :
    (r.setNum c v).getNum c' = r.getNum c' := by
  cases c <;> cases c' <;> first | rfl | exact absurd rfl h

theorem Trip.getNum_setCat (r : Trip) (c : CatCol) (v : Option String) (c' : NumCol) :
    (r.setCat c v).getNum c' = r.getNum c' := by
  cases c <;> cases c' <;> rfl

theorem Trip.getCat_setNum (r : Trip) (c : NumCol) (v : Option Rat) (c' : CatCol) :
    (r.setNum c v).getCat c' = r.getCat c' := by
  cases c <;> cases c' <;> rfl

theorem Trip.getCat_setCat_self (r : Trip) (c : CatCol) (v : Option String) :
    (r.setCat c v).getCat c = v := by
  cases c <;> rfl

/-! ### Helper lemmas: scrubbing -/

/-- Scrubbing one column leaves every other column of a record alone. -/
theorem scrubRecord_getNum_ne {c c' : NumCol} (h : c ≠ c') (r : Trip) :
    (scrubRecord c r).getNum c' = r.getNum c' := by
  cases hv : r.getNum c with
  | none => simp [scrubRecord, hv]
  | some v =>
    by_cases hneg : v < 0 <;>
      simp [scrubRecord, hv, hneg, Trip.getNum_setNum_ne r h]

/-- Scrubbing keeps a missing value missing, in every column. -/
theorem scrubRecord_getNum_none {c' : NumCol} {r : Trip} (h : r.getNum c' = none)
    (c : NumCol) : (scrubRecord c r).getNum c' = none := by
  cases hv : r.getNum c with
  | none => simpa [scrubRecord, hv] using h
  | some v =>
    by_cases hneg : v < 0
    · by_cases hcc : c = c'
      · subst hcc
        simp [scrubRecord, hv, hneg, Trip.getNum_setNum_self]
      · simp [scrubRecord, hv, hneg, Trip.getNum_setNum_ne r hcc, h]
    · simpa [scrubRecord, hv, hneg] using h

/-- After scrubbing a column, any value still present in it is
non-negative. -/
theorem scrubRecord_getNum_self_nonneg (c : NumCol) (r : Trip) (v : Rat)
    (h : (scrubRecord c r).getNum c = some v) : 0 ≤ v := by
  cases hv : r.getNum c with
  | none =>
    rw [scrubRecord, hv] at h
    exact absurd (hv.symm.trans h) (by simp)
  | some w =>
    by_cases hneg : w < 0
    · rw [scrubRecord, hv] at h
      simp only [if_pos hneg, Trip.getNum_setNum_self] at h
      exact Option.noConfusion h
    · rw [scrubRecord, hv] at h
      simp only [if_neg hneg] at h
      rw [hv] at h
      cases h
      exact le_of_not_lt hneg

/-- The per-column non-negativity invariant: every present value of the
column is at least zero (stated through `getD` so that it is decidable on
concrete record sets). -/
def NonnegCol (df : List Trip) (c : NumCol) : Prop :=
  ∀ r ∈ df, 0 ≤ ((r.getNum c).getD 0)

instance (df : List Trip) (c : NumCol) : Decidable (NonnegCol df c) :=
  List.decidableBAll _ df

/-- `NonnegCol` specialised to a present value. -/
theorem NonnegCol.of_some {df : List Trip} {c : NumCol} (h : NonnegCol df c)
    {r : Trip} (hr : r ∈ df) {v : Rat} (hv : r.getNum c = some v) : 0 ≤ v := by
  have := h r hr
  rw [hv] at this
  exact this

/-- Build `NonnegCol` from the per-value statement. -/
theorem NonnegCol.of_forall {df : List Trip} {c : NumCol}
    (h : ∀ r ∈ df, ∀ v, r.getNum c = some v → 0 ≤ v) : NonnegCol df c := by
  intro r hr
  cases hv : r.getNum c with
  | none => simp
  | some v => simpa using h r hr v hv

/-- Every value of a column list is non-negative when the column invariant
holds. -/
theorem colValues_nonneg {df : List Trip} {c : NumCol} (h : NonnegCol df c) :
    ∀ x ∈ colValues df c, 0 ≤ x := by
  intro x hx
  obtain ⟨r, hr, hrx⟩ := List.mem_filterMap.mp hx
  exact h.of_some hr hrx

/-- One scrub pass makes its own column non-negative and preserves the
non-negativity of any column that already had it. -/
theorem nonnegCol_scrubStep {d : List Trip} {c : NumCol} (c0 : NumCol)
    (h : c = c0 ∨ NonnegCol d c) : NonnegCol (scrubStep d c0) c := by
  intro r' hr'
  obtain ⟨r, hr, rfl⟩ := List.mem_map.mp hr'
  rcases h with rfl | h
  · cases hv : (scrubRecord c r).getNum c with
    | none => simp
    | some v => simpa using scrubRecord_getNum_self_nonneg c r v hv
  · by_cases hcc : c0 = c
    · subst hcc
      cases hv : (scrubRecord c0 r).getNum c0 with
      | none => simp
      | some v => simpa using scrubRecord_getNum_self_nonneg c0 r v hv
    · rw [scrubRecord_getNum_ne hcc]
      exact h r hr

/-- After `remove_negative_values`, every listed column satisfies the
non-negativity invariant, and any column that already satisfied it keeps
it. -/
theorem nonnegCol_remove_negative (cols : List NumCol) (df : List Trip) (c : NumCol)
    (h : c ∈ cols ∨ NonnegCol df c) :
    NonnegCol (remove_negative_values df cols) c := by
  unfold remove_negative_values
  induction cols generalizing df with
  | nil =>
    rcases h with h | h
    · exact absurd h (List.not_mem_nil c)
    · exact h
  | cons c0 cs ih =>
    simp only [List.foldl_cons]
    apply ih
    rcases h with h | h
    · rcases List.mem_cons.mp h with rfl | h2
      · exact Or.inr (nonnegCol_scrubStep _ (Or.inl rfl))
      · exact Or.inl h2
    · exact Or.inr (nonnegCol_scrubStep c0 (Or.inr h))

/-! ### Helper lemmas: statistics preserve non-negativity -/

theorem getD_nonneg_of_forall {s : List Rat} (h : ∀ x ∈ s, 0 ≤ x) (i : Nat) (d : Rat)
    (hd : 0 ≤ d) : 0 ≤ s.getD i d := by
  by_cases hi : i < s.length
  · rw [List.getD_eq_getElem s d hi]
    exact h _ (List.getElem_mem hi)
  · rw [List.getD_eq_default s d (le_of_not_lt hi)]
    exact hd

theorem sorted_vals_nonneg {xs : List Rat} (h : ∀ x ∈ xs, 0 ≤ x) :
    ∀ x ∈ xs.insertionSort (· ≤ ·), 0 ≤ x := by
  intro x hx
  exact h x ((List.perm_insertionSort _ xs).mem_iff.mp hx)

theorem medianSorted_nonneg {s : List Rat} (h : ∀ x ∈ s, 0 ≤ x) :
    0 ≤ medianSorted s := by
  unfold medianSorted
  have h0 : 0 ≤ s.getD (s.length / 2) 0 := getD_nonneg_of_forall h _ _ le_rfl
  have h1 : 0 ≤ s.getD (s.length / 2 - 1) 0 := getD_nonneg_of_forall h _ _ le_rfl
  split
  · exact h0
  · exact div_nonneg (add_nonneg h1 h0) (by norm_num)

/-- The median of a list of non-negative values is non-negative. -/
theorem median_nonneg {xs : List Rat} (h : ∀ x ∈ xs, 0 ≤ x) {m : Rat}
    (hm : median xs = some m) : 0 ≤ m := by
  unfold median at hm
  split at hm
  · exact Option.noConfusion hm
  · have hm2 := Option.some.inj hm
    subst hm2
    exact medianSorted_nonneg (sorted_vals_nonneg h)

theorem interpAt_nonneg {s : List Rat} (h : ∀ x ∈ s, 0 ≤ x) {pos : Rat}
    (hpos : 0 ≤ pos) : 0 ≤ interpAt s pos := by
  unfold interpAt
  have hfl : (0 : Int) ≤ ⌊pos⌋ := Int.floor_nonneg.mpr hpos
  have hcast : ((⌊pos⌋.toNat : Nat) : Rat) = ((⌊pos⌋ : Int) : Rat) := by
    exact_mod_cast Int.toNat_of_nonneg hfl
  have hfrac0 : 0 ≤ pos - ((⌊pos⌋.toNat : Nat) : Rat) := by
    rw [hcast]
    have := Int.floor_le pos
    linarith
  have hfrac1 : pos - ((⌊pos⌋.toNat : Nat) : Rat) ≤ 1 := by
    rw [hcast]
    have := Int.lt_floor_add_one pos
    push_cast at this
    linarith
  have hvlo : 0 ≤ s.getD ⌊pos⌋.toNat 0 := getD_nonneg_of_forall h _ _ le_rfl
  have hvhi : 0 ≤ s.getD (⌊pos⌋.toNat + 1) (s.getD ⌊pos⌋.toNat 0) :=
    getD_nonneg_of_forall h _ _ hvlo
  nlinarith [mul_nonneg hfrac0 hvhi, mul_nonneg (sub_nonneg.mpr hfrac1) hvlo]

/-- A quantile (for 0 ≤ q) of a list of non-negative values is
non-negative. -/
theorem quantile_nonneg {xs : List Rat} (h : ∀ x ∈ xs, 0 ≤ x) {q : Rat} (hq : 0 ≤ q)
    {y : Rat} (hy : quantile xs q = some y) : 0 ≤ y := by
  unfold quantile at hy
  split at hy
  · exact Option.noConfusion hy
  · rename_i hne
    have hxs : xs ≠ [] := by
      intro hnil
      subst hnil
      exact hne rfl
    have hlen : 1 ≤ xs.length := List.length_pos.mpr hxs
    have hpos : 0 ≤ q * ((xs.length : Rat) - 1) := by
      apply mul_nonneg hq
      have : (1 : Rat) ≤ (xs.length : Rat) := by exact_mod_cast hlen
      linarith
    have hy2 := Option.some.inj hy
    subst hy2
    exact interpAt_nonneg (sorted_vals_nonneg h) hpos

/-- Clipping a non-negative value between non-negative (or absent) bounds
yields a non-negative value. -/
theorem clip_nonneg {v : Rat} {lower upper : Option Rat} (hv : 0 ≤ v)
    (hl : ∀ l, lower = some l → 0 ≤ l) (hu : ∀ u, upper = some u → 0 ≤ u) :
    0 ≤ clip v lower upper := by
  cases lower with
  | none =>
    cases upper with
    | none => exact hv
    | some u => exact le_min hv (hu u rfl)
  | some l =>
    cases upper with
    | none => exact le_max_of_le_left hv
    | some u => exact le_min (le_max_of_le_left hv) (hu u rfl)

/-! ### Helper lemmas: imputation -/

/-- A numeric column with no missing value in any record. -/
def FilledNum (df : List Trip) (c : NumCol) : Prop :=
  ∀ r ∈ df, (r.getNum c).isSome

instance (df : List Trip) (c : NumCol) : Decidable (FilledNum df c) :=
  List.decidableBAll _ df

/-- A categorical column with no missing value in any record. -/
def FilledCat (df : List Trip) (c : CatCol) : Prop :=
  ∀ r ∈ df, (r.getCat c).isSome

instance (df : List Trip) (c : CatCol) : Decidable (FilledCat df c) :=
  List.decidableBAll _ df

/-- A numeric column that is missing in every record. -/
def AllMissingNum (df : List Trip) (c : NumCol) : Prop :=
  ∀ r ∈ df, r.getNum c = none

instance (df : List Trip) (c : NumCol) : Decidable (AllMissingNum df c) :=
  List.decidableBAll _ df

/-- The accumulator of the mode fold never falls back to `none` once set. -/
theorem mode_foldl_isSome (xs : List String) (as : List String) (b : String) :
    (as.foldl (fun best c =>
      match best with
      | none => some c
      | some b => if xs.count b < xs.count c then some c else best) (some b)).isSome := by
  induction as generalizing b with
  | nil => rfl
  | cons a as ih =>
    simp only [List.foldl_cons]
    by_cases hc : xs.count b < xs.count a
    · simpa [hc] using ih a
    · simpa [hc] using ih b

/-- `series.mode()` is empty exactly on an all-missing (empty-valued)
column. -/
theorem mode_eq_none_iff (xs : List String) : mode xs = none ↔ xs = [] := by
  constructor
  · intro h
    by_contra hne
    have h1 : xs.dedup ≠ [] := fun hd => hne ((List.dedup_eq_nil xs).mp hd)
    have h2 : xs.dedup.insertionSort (· ≤ ·) ≠ [] := by
      intro hs
      have hp := List.perm_insertionSort (· ≤ ·) xs.dedup
      rw [hs] at hp
      exact h1 hp.symm.eq_nil
    obtain ⟨a, as, hcons⟩ := List.exists_cons_of_ne_nil h2
    unfold mode at h
    rw [hcons, List.foldl_cons] at h
    have := mode_foldl_isSome xs as a
    rw [h] at this
    exact Bool.noConfusion this
  · intro h
    subst h
    rfl

/-- Reduction of `fill_missing_categorical` on a single column. -/
theorem fill_missing_categorical_single (d : List Trip) (c : CatCol) :
    fill_missing_categorical d [c]
      = match mode (colValuesCat d c) with
        | none => Except.error (.emptyModeIndex c)
        | some m =>
            Except.ok (d.map (fun r =>
              if r.getCat c = none then r.setCat c (some m) else r)) := by
  unfold fill_missing_categorical
  cases hm : mode (colValuesCat d c) <;>
    simp [List.foldlM, hm, Bind.bind, Except.bind, pure, Except.pure]

/-- The record update of the categorical fill touches no numeric column. -/
theorem catFillRecord_getNum (c : CatCol) (m : String) (r : Trip) (c' : NumCol) :
    ((if r.getCat c = none then r.setCat c (some m) else r)).getNum c' = r.getNum c' := by
  by_cases h : r.getCat c = none
  · rw [if_pos h, Trip.getNum_setCat]
  · rw [if_neg h]

/-- A successful categorical fill on the fixed column list leaves every
numeric column of every row unchanged and fills the categorical column. -/
theorem fill_missing_categorical_ok_cols {d out : List Trip}
    (h : fill_missing_categorical d categorical_cols = Except.ok out) :
    ∃ m, out = d.map (fun r =>
      if r.getCat .store_and_fwd_flag = none
      then r.setCat .store_and_fwd_flag (some m) else r) := by
  rw [show categorical_cols = [CatCol.store_and_fwd_flag] from rfl,
    fill_missing_categorical_single] at h
  cases hm : mode (colValuesCat d .store_and_fwd_flag) with
  | none => rw [hm] at h; exact Except.noConfusion h
  | some m =>
    rw [hm] at h
    exact ⟨m, (Except.ok.inj h).symm⟩

/-- One numeric fill pass preserves column non-negativity: the fill value
is the median of the (non-negative) present values of the filled column. -/
theorem nonnegCol_fillNumericStep {d : List Trip} {c : NumCol} (c0 : NumCol)
    (h : NonnegCol d c) : NonnegCol (fillNumericStep d c0) c := by
  unfold fillNumericStep
  cases hm : median (colValues d c0) with
  | none => exact h
  | some m =>
    intro r' hr'
    obtain ⟨r, hr, rfl⟩ := List.mem_map.mp hr'
    by_cases hnone : r.getNum c0 = none
    · rw [if_pos hnone]
      by_cases hcc : c0 = c
      · subst hcc
        rw [Trip.getNum_setNum_self]
        have hmed : 0 ≤ m := by
          have hvals : ∀ x ∈ colValues d c0, 0 ≤ x := colValues_nonneg h
          exact median_nonneg hvals hm
        simpa using hmed
      · rw [Trip.getNum_setNum_ne r hcc]
        exact h r hr
    · rw [if_neg hnone]
      exact h r hr

/-- The median of a non-empty value list is defined. -/
theorem median_isSome_of_ne_nil {xs : List Rat} (h : xs ≠ []) :
    ∃ m, median xs = some m := by
  cases xs with
  | nil => exact absurd rfl h
  | cons a as => exact ⟨_, rfl⟩

/-- Filling a non-empty column leaves it with no missing value. -/
theorem filledNum_fillNumericStep_self {d : List Trip} {c : NumCol}
    (h : colValues d c ≠ []) : FilledNum (fillNumericStep d c) c := by
  unfold fillNumericStep
  cases hm : median (colValues d c) with
  | none =>
    exfalso
    obtain ⟨m, hm2⟩ := median_isSome_of_ne_nil h
    rw [hm] at hm2
    exact Option.noConfusion hm2
  | some m =>
    intro r' hr'
    obtain ⟨r, hr, rfl⟩ := List.mem_map.mp hr'
    by_cases hnone : r.getNum c = none
    · rw [if_pos hnone, Trip.getNum_setNum_self]
      rfl
    · rw [if_neg hnone]
      exact Option.isSome_iff_ne_none.mpr hnone

/-- A numeric fill pass never empties a column: present values stay
present. -/
theorem filledNum_fillNumericStep_pres {d : List Trip} {c : NumCol} (c0 : NumCol)
    (h : FilledNum d c) : FilledNum (fillNumericStep d c0) c := by
  unfold fillNumericStep
  cases hm : median (colValues d c0) with
  | none => exact h
  | some m =>
    intro r' hr'
    obtain ⟨r, hr, rfl⟩ := List.mem_map.mp hr'
    by_cases hnone : r.getNum c0 = none
    · rw [if_pos hnone]
      by_cases hcc : c0 = c
      · subst hcc; rw [Trip.getNum_setNum_self]; rfl
      · rw [Trip.getNum_setNum_ne r hcc]; exact h r hr
    · rw [if_neg hnone]; exact h r hr

/-- A numeric fill pass keeps a non-empty column non-empty. -/
theorem colValues_ne_nil_fillNumericStep {d : List Trip} {c : NumCol} (c0 : NumCol)
    (h : colValues d c ≠ []) : colValues (fillNumericStep d c0) c ≠ [] := by
  obtain ⟨x, hx⟩ := List.exists_mem_of_ne_nil _ h
  obtain ⟨r, hr, hrx⟩ := List.mem_filterMap.mp hx
  unfold fillNumericStep
  cases hm : median (colValues d c0) with
  | none => exact h
  | some m =>
    show colValues
      (d.map (fun r => if r.getNum c0 = none then r.setNum c0 (some m) else r)) c ≠ []
    intro hnil
    rw [colValues, List.filterMap_eq_nil_iff] at hnil
    have hmem := List.mem_map_of_mem
      (fun r => if r.getNum c0 = none then r.setNum c0 (some m) else r) hr
    have h2 := hnil _ hmem
    dsimp only at h2
    by_cases hnone : r.getNum c0 = none
    · rw [if_pos hnone] at h2
      by_cases hcc : c0 = c
      · subst hcc; rw [hrx] at hnone; exact Option.noConfusion hnone
      · rw [Trip.getNum_setNum_ne r hcc, hrx] at h2; exact Option.noConfusion h2
    · rw [if_neg hnone, hrx] at h2; exact Option.noConfusion h2

/-- An all-missing column stays all-missing through a numeric fill pass:
filling it itself is a `fillna(NaN)` no-op, and filling another column
does not touch it. -/
theorem allMissing_fillNumericStep {d : List Trip} {c : NumCol} (c0 : NumCol)
    (h : AllMissingNum d c) : AllMissingNum (fillNumericStep d c0) c := by
  by_cases hcc : c0 = c
  · subst hcc
    have hvals : colValues d c0 = [] :=
      List.filterMap_eq_nil_iff.mpr (fun r hr => h r hr)
    unfold fillNumericStep
    rw [hvals]
    exact h
  · unfold fillNumericStep
    cases hm : median (colValues d c0) with
    | none => exact h
    | some m =>
      intro r' hr'
      obtain ⟨r, hr, rfl⟩ := List.mem_map.mp hr'
      by_cases hnone : r.getNum c0 = none
      · rw [if_pos hnone, Trip.getNum_setNum_ne r hcc]; exact h r hr
      · rw [if_neg hnone]; exact h r hr

/-- A numeric fill pass leaves every categorical column untouched. -/
theorem colValuesCat_fillNumericStep (d : List Trip) (c0 : NumCol) (c : CatCol) :
    colValuesCat (fillNumericStep d c0) c = colValuesCat d c := by
  unfold fillNumericStep
  cases hm : median (colValues d c0) with
  | none => rfl
  | some m =>
    unfold colValuesCat
    rw [List.filterMap_map]
    apply List.filterMap_congr
    intro r hr
    by_cases hnone : r.getNum c0 = none
    · simp only [Function.comp_apply, if_pos hnone, Trip.getCat_setNum]
    · simp only [Function.comp_apply, if_neg hnone]

/-- A numeric fill pass preserves a filled categorical column. -/
theorem filledCat_fillNumericStep {d : List Trip} {c : CatCol} (c0 : NumCol)
    (h : FilledCat d c) : FilledCat (fillNumericStep d c0) c := by
  unfold fillNumericStep
  cases hm : median (colValues d c0) with
  | none => exact h
  | some m =>
    intro r' hr'
    obtain ⟨r, hr, rfl⟩ := List.mem_map.mp hr'
    by_cases hnone : r.getNum c0 = none
    · rw [if_pos hnone, Trip.getCat_setNum]; exact h r hr
    · rw [if_neg hnone]; exact h r hr

/-- Full numeric imputation preserves column non-negativity. -/
theorem nonnegCol_fill_missing_numeric (cols : List NumCol) {df : List Trip}
    {c : NumCol} (h : NonnegCol df c) :
    NonnegCol (fill_missing_numeric df cols) c := by
  unfold fill_missing_numeric
  induction cols generalizing df with
  | nil => exact h
  | cons c0 cs ih =>
    rw [List.foldl_cons]
    exact ih (nonnegCol_fillNumericStep c0 h)

/-- A filled column stays filled through any sequence of fill passes. -/
theorem filledNum_foldl_fill (cs : List NumCol) {df : List Trip} {c : NumCol}
    (h : FilledNum df c) : FilledNum (cs.foldl fillNumericStep df) c := by
  induction cs generalizing df with
  | nil => exact h
  | cons c1 cs1 ih =>
    rw [List.foldl_cons]
    exact ih (filledNum_fillNumericStep_pres c1 h)

/-- After full numeric imputation, every listed column whose value list was
non-empty going in has no missing value left. -/
theorem filledNum_fill_missing_numeric (cols : List NumCol) (df : List Trip)
    (h : ∀ c ∈ cols, colValues df c ≠ []) :
    ∀ c ∈ cols, FilledNum (fill_missing_numeric df cols) c := by
  unfold fill_missing_numeric
  induction cols generalizing df with
  | nil => intro c hc; exact absurd hc (List.not_mem_nil c)
  | cons c0 cs ih =>
    intro c hc
    rw [List.foldl_cons]
    rcases List.mem_cons.mp hc with rfl | hmem
    · exact filledNum_foldl_fill cs
        (filledNum_fillNumericStep_self (h c (List.mem_cons_self c cs)))
    · exact ih (fillNumericStep df c0)
        (fun c2 hc2 =>
          colValues_ne_nil_fillNumericStep c0 (h c2 (List.mem_cons_of_mem c0 hc2)))
        c hmem

/-- Fold versions of the remaining fill-pass facts. -/
theorem allMissing_fill_missing_numeric (cols : List NumCol) {df : List Trip}
    {c : NumCol} (h : AllMissingNum df c) :
    AllMissingNum (fill_missing_numeric df cols) c := by
  unfold fill_missing_numeric
  induction cols generalizing df with
  | nil => exact h
  | cons c0 cs ih =>
    rw [List.foldl_cons]
    exact ih (allMissing_fillNumericStep c0 h)

theorem colValuesCat_fill_missing_numeric (cols : List NumCol) (df : List Trip)
    (c : CatCol) :
    colValuesCat (fill_missing_numeric df cols) c = colValuesCat df c := by
  unfold fill_missing_numeric
  induction cols generalizing df with
  | nil => rfl
  | cons c0 cs ih =>
    rw [List.foldl_cons, ih (fillNumericStep df c0), colValuesCat_fillNumericStep]

theorem filledCat_fill_missing_numeric (cols : List NumCol) {df : List Trip}
    {c : CatCol} (h : FilledCat df c) :
    FilledCat (fill_missing_numeric df cols) c := by
  unfold fill_missing_numeric
  induction cols generalizing df with
  | nil => exact h
  | cons c0 cs ih =>
    rw [List.foldl_cons]
    exact ih (filledCat_fillNumericStep c0 h)

/-! ### Helper lemmas: scrubbing and categorical columns -/

/-- Scrubbing touches no categorical column of a record. -/
theorem scrubRecord_getCat (c0 : NumCol) (r : Trip) (c : CatCol) :
    (scrubRecord c0 r).getCat c = r.getCat c := by
  cases hv : r.getNum c0 with
  | none => simp [scrubRecord, hv]
  | some v =>
    by_cases hneg : v < 0 <;>
      simp [scrubRecord, hv, hneg, Trip.getCat_setNum]

theorem colValuesCat_remove_negative (cols : List NumCol) (df : List Trip)
    (c : CatCol) :
    colValuesCat (remove_negative_values df cols) c = colValuesCat df c := by
  unfold remove_negative_values
  induction cols generalizing df with
  | nil => rfl
  | cons c0 cs ih =>
    rw [List.foldl_cons, ih (scrubStep df c0)]
    unfold scrubStep colValuesCat
    rw [List.filterMap_map]
    apply List.filterMap_congr
    intro r hr
    simp only [Function.comp_apply, scrubRecord_getCat]

theorem filledCat_remove_negative (cols : List NumCol) {df : List Trip}
    {c : CatCol} (h : FilledCat df c) :
    FilledCat (remove_negative_values df cols) c := by
  unfold remove_negative_values
  induction cols generalizing df with
  | nil => exact h
  | cons c0 cs ih =>
    rw [List.foldl_cons]
    apply ih
    intro r' hr'
    obtain ⟨r, hr, rfl⟩ := List.mem_map.mp hr'
    rw [scrubRecord_getCat]
    exact h r hr

/-! ### Helper lemmas: capping -/

/-- Capping a column maps present values to present values and missing to
missing, and touches no other column. -/
theorem capRecord_getNum_ne {col c : NumCol} (h : col ≠ c)
    (lv uv : Option Rat) (r : Trip) :
    (capRecord col lv uv r).getNum c = r.getNum c := by
  cases hv : r.getNum col with
  | none => simp [capRecord, hv]
  | some v => simp [capRecord, hv, Trip.getNum_setNum_ne r h]

theorem capRecord_getNum_self (col : NumCol) (lv uv : Option Rat) (r : Trip) :
    (capRecord col lv uv r).getNum col
      = (r.getNum col).map (fun v => clip v lv uv) := by
  cases hv : r.getNum col with
  | none => simp [capRecord, hv]
  | some v => simp [capRecord, hv, Trip.getNum_setNum_self]

theorem capRecord_getCat (col : NumCol) (lv uv : Option Rat) (r : Trip) (c : CatCol) :
    (capRecord col lv uv r).getCat c = r.getCat c := by
  cases hv : r.getNum col with
  | none => simp [capRecord, hv]
  | some v => simp [capRecord, hv, Trip.getCat_setNum]

/-- Capping a column preserves non-negativity: the clip bounds are
quantiles of the column's own non-negative values. -/
theorem nonnegCol_cap_outliers {d : List Trip} {c : NumCol} (col : NumCol)
    {lp up : Rat} (hlp : 0 ≤ lp) (hup : 0 ≤ up) (h : NonnegCol d c) :
    NonnegCol (cap_outliers d col lp up) c := by
  unfold cap_outliers
  intro r' hr'
  obtain ⟨r, hr, rfl⟩ := List.mem_map.mp hr'
  by_cases hcc : col = c
  · subst hcc
    rw [capRecord_getNum_self]
    cases hv : r.getNum col with
    | none => simp
    | some v =>
      simp only [Option.map_some', Option.getD_some]
      apply clip_nonneg (h.of_some hr hv)
      · intro l hl
        exact quantile_nonneg (colValues_nonneg h) hlp hl
      · intro u hu
        exact quantile_nonneg (colValues_nonneg h) hup hu
  · rw [capRecord_getNum_ne hcc]
    exact h r hr

/-- Capping preserves a filled column. -/
theorem filledNum_cap_outliers {d : List Trip} {c : NumCol} (col : NumCol)
    (lp up : Rat) (h : FilledNum d c) :
    FilledNum (cap_outliers d col lp up) c := by
  unfold cap_outliers
  intro r' hr'
  obtain ⟨r, hr, rfl⟩ := List.mem_map.mp hr'
  by_cases hcc : col = c
  · subst hcc
    rw [capRecord_getNum_self]
    have := h r hr
    cases hv : r.getNum col with
    | none => rw [hv] at this; exact Bool.noConfusion this
    | some v => simp
  · rw [capRecord_getNum_ne hcc]
    exact h r hr

/-- Capping keeps an all-missing column all-missing. -/
theorem allMissing_cap_outliers {d : List Trip} {c : NumCol} (col : NumCol)
    (lp up : Rat) (h : AllMissingNum d c) :
    AllMissingNum (cap_outliers d col lp up) c := by
  unfold cap_outliers
  intro r' hr'
  obtain ⟨r, hr, rfl⟩ := List.mem_map.mp hr'
  by_cases hcc : col = c
  · subst hcc
    rw [capRecord_getNum_self, h r hr]
    rfl
  · rw [capRecord_getNum_ne hcc]
    exact h r hr

/-- Capping touches no categorical column. -/
theorem filledCat_cap_outliers {d : List Trip} {c : CatCol} (col : NumCol)
    (lp up : Rat) (h : FilledCat d c) :
    FilledCat (cap_outliers d col lp up) c := by
  unfold cap_outliers
  intro r' hr'
  obtain ⟨r, hr, rfl⟩ := List.mem_map.mp hr'
  rw [capRecord_getCat]
  exact h r hr

/-- The capping stage as a whole preserves all four column facts. -/
theorem nonnegCol_capAll {df : List Trip} {c : NumCol} (h : NonnegCol df c) :
    NonnegCol (capAll df) c := by
  unfold capAll
  refine nonnegCol_cap_outliers _ (by norm_num) (by norm_num)
    (nonnegCol_cap_outliers _ (by norm_num) (by norm_num)
      (nonnegCol_cap_outliers _ (by norm_num) (by norm_num) h))

theorem filledNum_capAll {df : List Trip} {c : NumCol} (h : FilledNum df c) :
    FilledNum (capAll df) c :=
  filledNum_cap_outliers _ _ _
    (filledNum_cap_outliers _ _ _ (filledNum_cap_outliers _ _ _ h))

theorem allMissing_capAll {df : List Trip} {c : NumCol} (h : AllMissingNum df c) :
    AllMissingNum (capAll df) c :=
  allMissing_cap_outliers _ _ _
    (allMissing_cap_outliers _ _ _ (allMissing_cap_outliers _ _ _ h))

theorem filledCat_capAll {df : List Trip} {c : CatCol} (h : FilledCat df c) :
    FilledCat (capAll df) c :=
  filledCat_cap_outliers _ _ _
    (filledCat_cap_outliers _ _ _ (filledCat_cap_outliers _ _ _ h))

/-! ### Helper lemmas: scrubbing acts row by row -/

/-- The whole scrubbing stage as a per-record function. -/
def scrubRecordAll (cols : List NumCol) (r : Trip) : Trip :=
  cols.foldl (fun r c => scrubRecord c r) r

/-- `remove_negative_values` is the row-wise application of
`scrubRecordAll`: rows are neither removed nor reordered. -/
theorem remove_negative_values_map (df : List Trip) (cols : List NumCol) :
    remove_negative_values df cols = df.map (scrubRecordAll cols) := by
  unfold remove_negative_values scrubRecordAll
  induction cols generalizing df with
  | nil => simp
  | cons c cs ih =>
    simp only [List.foldl_cons]
    rw [ih (scrubStep df c)]
    unfold scrubStep
    rw [List.map_map]
    rfl

/-- Once a column of a record is missing, further scrub passes keep it
missing. -/
theorem foldl_scrub_preserves_none {r : Trip} {c : NumCol}
    (h : r.getNum c = none) (cols : List NumCol) :
    (cols.foldl (fun r c2 => scrubRecord c2 r) r).getNum c = none := by
  induction cols generalizing r with
  | nil => exact h
  | cons c0 cs ih =>
    rw [List.foldl_cons]
    exact ih (scrubRecord_getNum_none h c0)

/-- A negative value in a listed column is turned into a missing value by
the scrubbing stage. -/
theorem scrubRecordAll_neg_none {cols : List NumCol} {c : NumCol} (hc : c ∈ cols)
    {r : Trip} {v : Rat} (hv : r.getNum c = some v) (hneg : v < 0) :
    (scrubRecordAll cols r).getNum c = none := by
  unfold scrubRecordAll
  induction cols generalizing r with
  | nil => exact absurd hc (List.not_mem_nil c)
  | cons c0 cs ih =>
    rw [List.foldl_cons]
    by_cases hcc : c0 = c
    · subst hcc
      have h1 : (scrubRecord c0 r).getNum c0 = none := by
        simp [scrubRecord, hv, hneg, Trip.getNum_setNum_self]
      exact foldl_scrub_preserves_none h1 cs
    · have h1 : (scrubRecord c0 r).getNum c = some v := by
        rw [scrubRecord_getNum_ne hcc]
        exact hv
      rcases List.mem_cons.mp hc with h2 | h2
      · exact absurd h2.symm hcc
      · exact ih h2 h1

/-! ### Helper lemmas: the categorical fill map and the pipeline shape -/

/-- The categorical fill map preserves every numeric-column fact and fills
its own column. -/
theorem nonnegCol_catFillMap {d : List Trip} {c : NumCol} (cc : CatCol) (m : String)
    (h : NonnegCol d c) :
    NonnegCol (d.map (fun r => if r.getCat cc = none then r.setCat cc (some m) else r)) c := by
  intro r' hr'
  obtain ⟨r, hr, rfl⟩ := List.mem_map.mp hr'
  rw [catFillRecord_getNum]
  exact h r hr

theorem filledNum_catFillMap {d : List Trip} {c : NumCol} (cc : CatCol) (m : String)
    (h : FilledNum d c) :
    FilledNum (d.map (fun r => if r.getCat cc = none then r.setCat cc (some m) else r)) c := by
  intro r' hr'
  obtain ⟨r, hr, rfl⟩ := List.mem_map.mp hr'
  rw [catFillRecord_getNum]
  exact h r hr

theorem allMissing_catFillMap {d : List Trip} {c : NumCol} (cc : CatCol) (m : String)
    (h : AllMissingNum d c) :
    AllMissingNum (d.map (fun r => if r.getCat cc = none then r.setCat cc (some m) else r)) c := by
  intro r' hr'
  obtain ⟨r, hr, rfl⟩ := List.mem_map.mp hr'
  rw [catFillRecord_getNum]
  exact h r hr

theorem filledCat_catFillMap (cc : CatCol) (m : String) (d : List Trip) :
    FilledCat (d.map (fun r => if r.getCat cc = none then r.setCat cc (some m) else r)) cc := by
  intro r' hr'
  obtain ⟨r, hr, rfl⟩ := List.mem_map.mp hr'
  by_cases hnone : r.getCat cc = none
  · rw [if_pos hnone, Trip.getCat_setCat_self]
    rfl
  · rw [if_neg hnone]
    exact Option.isSome_iff_ne_none.mpr hnone

/-- Decomposition of a successful cleaning run into its four stages. -/
theorem preprocess_data_ok_decomp {df out : List Trip}
    (h : preprocess_data df = Except.ok out) :
    ∃ m, out = capAll
      ((fill_missing_numeric (remove_negative_values df scrub_cols) numeric_cols).map
        (fun r => if r.getCat .store_and_fwd_flag = none
          then r.setCat .store_and_fwd_flag (some m) else r)) := by
  unfold preprocess_data at h
  cases h3 : fill_missing_categorical
      (fill_missing_numeric (remove_negative_values df scrub_cols) numeric_cols)
      categorical_cols with
  | error e => rw [h3] at h; exact Except.noConfusion h
  | ok df3 =>
    rw [h3] at h
    obtain ⟨m, hm⟩ := fill_missing_categorical_ok_cols h3
    refine ⟨m, ?_⟩
    rw [← Except.ok.inj h, hm]

/-! ### Cleaner claims -/

/-- C8: scrubbing replaces every negative value of the fixed column set
{trip_distance, fare_amount, total_amount} by a missing value — rows are
kept (the stage preserves length and acts row by row), the negative cell
becomes missing rather than zero — and the full Cleaner output contains no
negative value in those columns. -/
theorem preprocess_scrub_nonneg (df out : List Trip)
    (h : preprocess_data df = Except.ok out) :
    (remove_negative_values df scrub_cols).length = df.length
    ∧ (∀ i, i < df.length → ∀ c ∈ scrub_cols, ∀ v,
        (df.getD i default).getNum c = some v → v < 0 →
        ((remove_negative_values df scrub_cols).getD i default).getNum c = none)
    ∧ (∀ c ∈ scrub_cols, NonnegCol out c) := by
  refine ⟨?_, ?_, ?_⟩
  · rw [remove_negative_values_map]
    exact List.length_map df _
  · intro i hi c hc v hv hneg
    have hlen : (remove_negative_values df scrub_cols).length = df.length := by
      rw [remove_negative_values_map]
      exact List.length_map df _
    rw [remove_negative_values_map]
    rw [List.getD_eq_getElem _ _ (by rw [List.length_map]; exact hi), List.getElem_map]
    rw [List.getD_eq_getElem _ _ hi] at hv
    exact scrubRecordAll_neg_none hc hv hneg
  · intro c hc
    obtain ⟨m, hm⟩ := preprocess_data_ok_decomp h
    rw [hm]
    exact nonnegCol_capAll
      (nonnegCol_catFillMap _ m
        (nonnegCol_fill_missing_numeric numeric_cols
          (nonnegCol_remove_negative scrub_cols df c (Or.inl hc))))

/-- A clean single-record set used as a base for concrete counterexamples
(all pipeline columns present, non-negative, flag set). -/
def exDirty : List Trip := [{ tripAtStart with trip_distance := some (-1) }]

/-- The Cleaner's output on `exDirty`: the scrubbed trip_distance stays
missing because trip_distance is not in the numeric fill set. -/
def exDirtyOut : List Trip := [{ tripAtStart with trip_distance := none }]

set_option maxRecDepth 100000 in
/-- Witness for C8 on a concrete record set carrying a negative
trip_distance. -/
theorem preprocess_scrub_nonneg_witness :
    preprocess_data exDirty = Except.ok exDirtyOut
    ∧ ((remove_negative_values exDirty scrub_cols).length = exDirty.length
      ∧ (∀ i, i < exDirty.length → ∀ c ∈ scrub_cols, ∀ v,
          (exDirty.getD i default).getNum c = some v → v < 0 →
          ((remove_negative_values exDirty scrub_cols).getD i default).getNum c = none)
      ∧ (∀ c ∈ scrub_cols, NonnegCol exDirtyOut c)) :=
  ⟨by decide, preprocess_scrub_nonneg exDirty exDirtyOut (by decide)⟩

set_option maxRecDepth 100000 in
/-- C2 counterexample: a record whose trip_distance is −1 (all other fields
present): the full Cleaner succeeds but its output has a missing
trip_distance — the scrubbed-to-missing value is never imputed, because
trip_distance is not in the fixed numeric fill set. -/
theorem preprocess_leaves_trip_distance_missing :
    preprocess_data exDirty = Except.ok exDirtyOut
    ∧ exDirtyOut.map (fun r => r.trip_distance) = [none] :=
  ⟨by decide, by decide⟩

/-- C2 (amended): after the Cleaner, the fixed numeric fill set
{passenger_count, congestion_surcharge, Airport_fee, RatecodeID,
fare_amount, total_amount} and the categorical set {store_and_fwd_flag}
contain no missing value, provided each numeric fill column still has at
least one present value after scrubbing; trip_distance is not covered, as
it is absent from the fill set. -/
theorem preprocess_fills_fixed_cols (df out : List Trip)
    (h : preprocess_data df = Except.ok out)
    (hcols : ∀ c ∈ numeric_cols, colValues (remove_negative_values df scrub_cols) c ≠ []) :
    (∀ c ∈ numeric_cols, FilledNum out c)
    ∧ (∀ c ∈ categorical_cols, FilledCat out c) := by
  obtain ⟨m, hm⟩ := preprocess_data_ok_decomp h
  constructor
  · intro c hc
    rw [hm]
    exact filledNum_capAll
      (filledNum_catFillMap _ m
        (filledNum_fill_missing_numeric numeric_cols _ hcols c hc))
  · intro c hc
    rcases List.mem_cons.mp hc with rfl | hc2
    · rw [hm]
      exact filledCat_capAll (filledCat_catFillMap _ m _)
    · exact absurd hc2 (List.not_mem_nil c)

set_option maxRecDepth 100000 in
/-- Witness for C2 (amended) on the concrete record set `exDirty`. -/
theorem preprocess_fills_fixed_cols_witness :
    (∀ c ∈ numeric_cols, colValues (remove_negative_values exDirty scrub_cols) c ≠ [])
    ∧ ((∀ c ∈ numeric_cols, FilledNum exDirtyOut c)
      ∧ (∀ c ∈ categorical_cols, FilledCat exDirtyOut c)) :=
  ⟨by decide, preprocess_fills_fixed_cols exDirty exDirtyOut (by decide) (by decide)⟩

/-- A record set whose passenger_count column is entirely missing (all
other columns present). -/
def exAllMissing : List Trip := [{ tripAtStart with passenger_count := none }]

set_option maxRecDepth 100000 in
/-- C6 counterexample: on a record set whose passenger_count column is all
missing, the Cleaner does not fail at all: it returns successfully, with
the column still entirely missing (fillna with the undefined median is a
silent no-op). -/
theorem preprocess_no_error_on_all_missing_numeric :
    preprocess_data exAllMissing = Except.ok exAllMissing
    ∧ exAllMissing.map (fun r => r.passenger_count) = [none] :=
  ⟨by decide, by decide⟩

/-- C6 (amended): an all-missing numeric column is silently left unfilled
by the Cleaner (no error), while an all-missing categorical column makes
the Cleaner fail — with the error of indexing an empty mode result, not a
dedicated EmptyColumnError. -/
theorem preprocess_all_missing_behaviour (df out : List Trip) (c : NumCol) :
    (c ∈ numeric_cols →
      AllMissingNum (remove_negative_values df scrub_cols) c →
      preprocess_data df = Except.ok out →
      AllMissingNum out c)
    ∧ ((∀ r ∈ df, r.getCat .store_and_fwd_flag = none) →
      preprocess_data df = Except.error (.emptyModeIndex .store_and_fwd_flag)) := by
  constructor
  · intro hc hall hok
    obtain ⟨m, hm⟩ := preprocess_data_ok_decomp hok
    rw [hm]
    exact allMissing_capAll
      (allMissing_catFillMap _ m (allMissing_fill_missing_numeric numeric_cols hall))
  · intro hcat
    have h2 : colValuesCat
        (fill_missing_numeric (remove_negative_values df scrub_cols) numeric_cols)
        .store_and_fwd_flag = [] := by
      rw [colValuesCat_fill_missing_numeric, colValuesCat_remove_negative]
      exact List.filterMap_eq_nil_iff.mpr (fun r hr => hcat r hr)
    have h3 : fill_missing_categorical
        (fill_missing_numeric (remove_negative_values df scrub_cols) numeric_cols)
        categorical_cols = Except.error (.emptyModeIndex .store_and_fwd_flag) := by
      rw [show categorical_cols = [CatCol.store_and_fwd_flag] from rfl,
        fill_missing_categorical_single, h2]
      rfl
    unfold preprocess_data
    rw [h3]

/-- A record set whose store_and_fwd_flag column is entirely missing. -/
def exNoFlag : List Trip := [{ tripAtStart with store_and_fwd_flag := none }]

set_option maxRecDepth 100000 in
/-- Witness for C6 (amended): an all-missing passenger_count survives the
Cleaner unfilled, and an all-missing store_and_fwd_flag crashes it. -/
theorem preprocess_all_missing_behaviour_witness :
    (NumCol.passenger_count ∈ numeric_cols
      ∧ AllMissingNum (remove_negative_values exAllMissing scrub_cols) .passenger_count
      ∧ AllMissingNum exAllMissing .passenger_count)
    ∧ ((∀ r ∈ exNoFlag, r.getCat .store_and_fwd_flag = none)
      ∧ preprocess_data exNoFlag
          = Except.error (.emptyModeIndex .store_and_fwd_flag)) :=
  ⟨⟨by decide, by decide,
      (preprocess_all_missing_behaviour exAllMissing exAllMissing .passenger_count).1
        (by decide) (by decide) (by decide)⟩,
    ⟨by decide,
      (preprocess_all_missing_behaviour exNoFlag [] .passenger_count).2 (by decide)⟩⟩

/-! ### Cleaner on already-clean data -/

/-- Scrubbing is a no-op on a record with no negative value in the
column. -/
theorem scrubRecord_eq_self {c : NumCol} {r : Trip}
    (h : ∀ v, r.getNum c = some v → 0 ≤ v) : scrubRecord c r = r := by
  cases hv : r.getNum c with
  | none => simp [scrubRecord, hv]
  | some v => simp [scrubRecord, hv, not_lt.mpr (h v hv)]

/-- The scrubbing stage is a no-op when no listed column has a negative
value. -/
theorem remove_negative_eq_self (cols : List NumCol) (df : List Trip)
    (h : ∀ c ∈ cols, NonnegCol df c) : remove_negative_values df cols = df := by
  unfold remove_negative_values
  induction cols with
  | nil => rfl
  | cons c0 cs ih =>
    rw [List.foldl_cons]
    have hstep : scrubStep df c0 = df := by
      unfold scrubStep
      have hmap : df.map (scrubRecord c0) = df.map id :=
        List.map_congr_left (fun r hr =>
          scrubRecord_eq_self (fun v hv =>
            (h c0 (List.mem_cons_self c0 cs)).of_some hr hv))
      rw [hmap, List.map_id]
    rw [hstep]
    exact ih (fun c hc => h c (List.mem_cons_of_mem c0 hc))

/-- A numeric fill pass is a no-op on a column with no missing value. -/
theorem fillNumericStep_eq_self {c : NumCol} {df : List Trip} (h : FilledNum df c) :
    fillNumericStep df c = df := by
  unfold fillNumericStep
  cases hm : median (colValues df c) with
  | none => rfl
  | some m =>
    show df.map (fun r => if r.getNum c = none then r.setNum c (some m) else r) = df
    have hmap : df.map (fun r => if r.getNum c = none then r.setNum c (some m) else r)
        = df.map id :=
      List.map_congr_left (fun r hr => by
        rw [if_neg (Option.isSome_iff_ne_none.mp (h r hr))]
        rfl)
    rw [hmap, List.map_id]

/-- The numeric imputation stage is a no-op when no listed column has a
missing value. -/
theorem fill_missing_numeric_eq_self (cols : List NumCol) (df : List Trip)
    (h : ∀ c ∈ cols, FilledNum df c) : fill_missing_numeric df cols = df := by
  unfold fill_missing_numeric
  induction cols with
  | nil => rfl
  | cons c0 cs ih =>
    rw [List.foldl_cons, fillNumericStep_eq_self (h c0 (List.mem_cons_self c0 cs))]
    exact ih (fun c hc => h c (List.mem_cons_of_mem c0 hc))

/-- A filled categorical column of a non-empty record set has a non-empty
value list. -/
theorem colValuesCat_ne_nil_of_filled {df : List Trip} {c : CatCol} (hne : df ≠ [])
    (h : FilledCat df c) : colValuesCat df c ≠ [] := by
  obtain ⟨r, rs, rfl⟩ := List.exists_cons_of_ne_nil hne
  intro hnil
  rw [colValuesCat, List.filterMap_eq_nil_iff] at hnil
  have h1 := h r (List.mem_cons_self r rs)
  rw [hnil r (List.mem_cons_self r rs)] at h1
  exact Bool.noConfusion h1

/-- The mode of a non-empty value list is defined. -/
theorem mode_isSome_of_ne_nil {xs : List String} (h : xs ≠ []) :
    ∃ m, mode xs = some m := by
  cases hm : mode xs with
  | none => exact absurd ((mode_eq_none_iff xs).mp hm) h
  | some m => exact ⟨m, rfl⟩

/-- The categorical imputation stage succeeds and is a no-op on a
non-empty record set whose flag column has no missing value. -/
theorem fill_missing_categorical_eq_self {df : List Trip} (hne : df ≠ [])
    (h : FilledCat df .store_and_fwd_flag) :
    fill_missing_categorical df categorical_cols = Except.ok df := by
  obtain ⟨m, hm⟩ := mode_isSome_of_ne_nil (colValuesCat_ne_nil_of_filled hne h)
  rw [show categorical_cols = [CatCol.store_and_fwd_flag] from rfl,
    fill_missing_categorical_single, hm]
  show Except.ok _ = Except.ok df
  have hmap : df.map (fun r =>
      if r.getCat .store_and_fwd_flag = none
      then r.setCat .store_and_fwd_flag (some m) else r) = df.map id :=
    List.map_congr_left (fun r hr => by
      rw [if_neg (Option.isSome_iff_ne_none.mp (h r hr))]
      rfl)
  rw [hmap, List.map_id]

/-- C9 (amended): on a non-empty, already-clean record set (no negative
value in the scrubbed columns, no missing value in the numeric fill and
categorical fill columns) the first three Cleaner stages are no-ops: the
Cleaner reduces to the outlier-capping stage alone.  It is not the
identity in general — capping still clamps values beyond the 1st/99th
percentiles. -/
theorem preprocess_clean_eq_capAll (df : List Trip) (hne : df ≠ [])
    (h1 : ∀ c ∈ scrub_cols, NonnegCol df c)
    (h2 : ∀ c ∈ numeric_cols, FilledNum df c)
    (h3 : FilledCat df .store_and_fwd_flag) :
    preprocess_data df = Except.ok (capAll df) := by
  unfold preprocess_data
  rw [remove_negative_eq_self scrub_cols df h1,
    fill_missing_numeric_eq_self numeric_cols df h2,
    fill_missing_categorical_eq_self hne h3]

/-- A second clean record, far from the first in every scrubbed column. -/
def tripFar : Trip :=
  { tripAtStart with
    trip_distance := some 100, fare_amount := some 100, total_amount := some 100 }

/-- A clean two-record set on which capping is not the identity. -/
def exClean2 : List Trip := [tripAtStart, tripFar]

/-- The Cleaner's output on `exClean2`: every scrubbed-column value is
clamped to the 1st/99th linear-interpolation percentiles of its column. -/
def exClean2Out : List Trip :=
  [{ tripAtStart with
      trip_distance := some (199 / 100), fare_amount := some (149 / 50),
      total_amount := some (397 / 100) },
   { tripAtStart with
      trip_distance := some (9901 / 100), fare_amount := some (4951 / 50),
      total_amount := some (9903 / 100) }]

set_option maxRecDepth 400000 in
/-- C9 counterexample: an already-clean two-record set (no negatives, no
missing values anywhere) that the Cleaner nevertheless changes: the
percentile capping clamps all six scrubbed-column values. -/
theorem preprocess_changes_clean_data :
    ((∀ c ∈ scrub_cols, NonnegCol exClean2 c)
      ∧ (∀ c ∈ numeric_cols, FilledNum exClean2 c)
      ∧ FilledCat exClean2 .store_and_fwd_flag)
    ∧ preprocess_data exClean2 = Except.ok exClean2Out
    ∧ exClean2Out ≠ exClean2 :=
  ⟨⟨by decide, by decide, by decide⟩, by decide, by decide⟩

set_option maxRecDepth 400000 in
/-- Witness for C9 (amended) at the concrete clean record set. -/
theorem preprocess_clean_eq_capAll_witness :
    exClean2 ≠ []
    ∧ (∀ c ∈ scrub_cols, NonnegCol exClean2 c)
    ∧ (∀ c ∈ numeric_cols, FilledNum exClean2 c)
    ∧ FilledCat exClean2 .store_and_fwd_flag
    ∧ preprocess_data exClean2 = Except.ok (capAll exClean2) :=
  ⟨by decide, by decide, by decide, by decide,
    preprocess_clean_eq_capAll exClean2 (by decide) (by decide) (by decide) (by decide)⟩

end NycTaxi
